import Mathlib

/-!
Verification of the dark-pool matching engine (`DarkPoolEngine`).

The engine keeps per-token order books of encrypted orders, periodically
pairs resolved buy/sell sides after a Fisher-Yates shuffle, and hands the
matched pairs to an external settlement executor.  This file is a shallow
embedding of that engine: JavaScript `Map`s become association lists kept in
insertion order, object mutation through references becomes update-by-id
(order ids are freshly assigned naturals, standing in for uuids), JavaScript
numbers become exact rationals extended with signed infinities and NaN
(`JsNum`), and every source of randomness (`Math.random`, uuids, timestamps)
is passed in as an explicit parameter.
-/

namespace DarkPool

/-- Resolved order side. -/
inductive Side where
  | buy
  | sell
deriving DecidableEq, Repr

/-- Order lifecycle status; the engine only ever assigns these two. -/
inductive OrderStatus where
  | pending
  | matched
deriving DecidableEq, Repr

/-- The `encryptedSide` value.  `bytes bs` models a value whose base64
decode yields the byte list `bs` (possibly empty); `undecodable` models a
value on which the decode in `decryptSide` throws. -/
inductive EncSide where
  | bytes (bs : List Nat)
  | undecodable
deriving DecidableEq, Repr

/-- Fields of a JSON-parsed payload; absent fields are `none`.
JSON numbers are always finite, modelled as rationals. -/
structure PayloadData where
  amount : Option ℚ
  maxPrice : Option ℚ
  minPrice : Option ℚ
deriving DecidableEq, Repr

/-- The `encryptedPayload` blob: either it base64/JSON-parses to a
`PayloadData`, or parsing throws. -/
inductive Payload where
  | data (d : PayloadData)
  | unparseable
deriving DecidableEq, Repr

/-- A JavaScript field value as seen by the truthiness checks of
`validateEncryptedOrder`: absent (`undefined`/`null`), present but falsy
(e.g. the empty string), or a truthy value. -/
inductive JsVal (α : Type) where
  | missing
  | empty
  | val (a : α)
deriving DecidableEq, Repr

/-- Truthiness of a field. -/
def JsVal.isVal {α : Type} : JsVal α → Bool
  | .val _ => true
  | _ => false

/-- Extract a truthy value, with a default for the falsy cases. -/
def JsVal.getD {α : Type} : JsVal α → α → α
  | .val a, _ => a
  | _, d => d

/-- A JavaScript number: a finite rational, `Infinity`, `-Infinity` or
`NaN`.  Exact rational arithmetic stands in for float arithmetic. -/
inductive JsNum where
  | num (q : ℚ)
  | posInf
  | negInf
  | nan
deriving DecidableEq, Repr

/-- JavaScript addition on `JsNum`. -/
def JsNum.add : JsNum → JsNum → JsNum
  | .nan, _ => .nan
  | _, .nan => .nan
  | .posInf, .negInf => .nan
  | .negInf, .posInf => .nan
  | .posInf, _ => .posInf
  | _, .posInf => .posInf
  | .negInf, _ => .negInf
  | _, .negInf => .negInf
  | .num a, .num b => .num (a + b)

/-- Multiplication of a `JsNum` by a finite number `c`, as JavaScript
computes `c * x` (note `0 * Infinity = NaN`). -/
def JsNum.scale (c : ℚ) : JsNum → JsNum
  | .nan => .nan
  | .num q => .num (c * q)
  | .posInf => if c = 0 then .nan else if 0 < c then .posInf else .negInf
  | .negInf => if c = 0 then .nan else if 0 < c then .negInf else .posInf

/-- Division by two, as JavaScript computes `x / 2`. -/
def JsNum.half : JsNum → JsNum
  | .nan => .nan
  | .num q => .num (q / 2)
  | .posInf => .posInf
  | .negInf => .negInf

/-- `Math.max(0, x)` (NaN-propagating, as `Math.max` is). -/
def JsNum.max0 : JsNum → JsNum
  | .nan => .nan
  | .num q => .num (max 0 q)
  | .posInf => .posInf
  | .negInf => .num 0

/-- An admitted order as stored in a token's book.  `id` models the uuid
assigned at admission (fresh naturals stand in for fresh uuids). -/
structure Order where
  id : Nat
  encryptedPayload : Payload
  commitment : String
  nullifier : String
  tokenAddress : String
  timestamp : Nat
  status : OrderStatus
  encryptedSide : EncSide
deriving DecidableEq, Repr

/-- A raw submission before validation, each field with its truthiness. -/
structure RawOrder where
  payload : JsVal Payload
  commitment : JsVal String
  nullifier : JsVal String
  tokenAddress : JsVal String
  encryptedSide : JsVal EncSide
deriving DecidableEq, Repr

/-- A formed match: one buy and one sell order of the same token. -/
structure Match where
  id : Nat
  buyOrder : Order
  sellOrder : Order
  tokenAddress : String
  timestamp : Nat
deriving DecidableEq, Repr

/-- The decrypted execution details of one order (`decryptOrderForExecution`):
`amount` and `minPrice` are always finite (JSON value or finite default);
`maxPrice` may be the default `Infinity`. -/
structure ExecDetails where
  amount : ℚ
  maxPrice : JsNum
  minPrice : ℚ
deriving DecidableEq, Repr

/-- The durable execution record created on successful settlement. -/
structure Execution where
  id : Nat
  matchId : Nat
  tokenAddress : String
  price : JsNum
  amount : ℚ
  timestamp : Nat
  buyCommitment : String
  sellCommitment : String
  executedOnChain : Bool
  swapStatus : String
deriving DecidableEq, Repr

/-- A `pendingMatches` entry: the execution spread together with the
queried order's side and fill amount. -/
structure ExecRecord where
  execution : Execution
  side : Side
  fillAmount : ℚ
deriving DecidableEq, Repr

/-- Anonymized aggregate statistics. -/
structure Stats where
  totalOrders : Nat
  totalMatches : Nat
  totalVolume : JsNum
  totalExecuted : Nat
  lastMatchTime : Option Nat
  lastExecutionTime : Option Nat
deriving DecidableEq, Repr

/-- Engine configuration (constructor defaults; `matchingInterval` may come
from the environment). -/
structure Config where
  matchingInterval : Nat
  minBatchSize : Nat
  maxBatchSize : Nat
  executionDelayMin : Nat
  executionDelayMax : Nat
  feeRate : ℚ
deriving DecidableEq, Repr

/-- The configuration built by the engine constructor. -/
def defaultConfig (envInterval : Option Nat) : Config :=
  { matchingInterval := envInterval.getD 5000
    minBatchSize := 2
    maxBatchSize := 100
    executionDelayMin := 1000
    executionDelayMax := 10000
    feeRate := 3 / 1000 }

/-- The mutable engine state: order books and pending matches are JavaScript
`Map`s, modelled as association lists in insertion order; `nextId` feeds the
uuid supply. -/
structure EngineState where
  orderBooks : List (String × List Order)
  pendingMatches : List (String × ExecRecord)
  stats : Stats
  nextId : Nat
deriving DecidableEq, Repr

/-- The state of a freshly constructed engine. -/
def initialState : EngineState :=
  { orderBooks := []
    pendingMatches := []
    stats := { totalOrders := 0, totalMatches := 0, totalVolume := .num 0
               totalExecuted := 0, lastMatchTime := none, lastExecutionTime := none }
    nextId := 0 }

/-- `Map.get` on an insertion-ordered association list. -/
def mapGet {β : Type} (m : List (String × β)) (k : String) : Option β :=
  match m with
  | [] => none
  | e :: rest => if e.1 = k then some e.2 else mapGet rest k

/-- `Map.set` on an insertion-ordered association list: update in place if
the key is present, else append. -/
def mapSet {β : Type} (m : List (String × β)) (k : String) (v : β) : List (String × β) :=
  match m with
  | [] => [(k, v)]
  | e :: rest => if e.1 = k then (k, v) :: rest else e :: mapSet rest k v

/-- `validateEncryptedOrder`: truthiness of the five required fields; the
payload's contents are never inspected. -/
def validateEncryptedOrder (o : RawOrder) : Bool :=
  o.payload.isVal && o.commitment.isVal && o.nullifier.isVal &&
    o.tokenAddress.isVal && o.encryptedSide.isVal

/-- The admission receipt returned by `submitOrder`. -/
structure Receipt where
  orderId : Nat
  timestamp : Nat
  status : OrderStatus
  estimatedMatchTime : Nat
  commitment : String
deriving DecidableEq, Repr

/-- `getEstimatedMatchTime`. -/
def getEstimatedMatchTime (cfg : Config) (now : Nat) : Nat :=
  now + cfg.matchingInterval + (cfg.executionDelayMin + cfg.executionDelayMax) / 2

/-- Append an order to its token's book, creating the book if absent
(`if (!this.orderBooks.has(...)) set(...); get(...).push(order)`). -/
def bookPush (books : List (String × List Order)) (t : String) (o : Order) :
    List (String × List Order) :=
  match books with
  | [] => [(t, [o])]
  | e :: rest => if e.1 = t then (e.1, e.2 ++ [o]) :: rest else e :: bookPush rest t o

/-- `submitOrder`: validate, build the order, push it onto the book, bump
`totalOrders`, return the receipt; on validation failure throw
(`Except.error`) leaving the state untouched. -/
def submitOrder (cfg : Config) (now : Nat) (st : EngineState) (raw : RawOrder) :
    EngineState × Except String Receipt :=
  if validateEncryptedOrder raw then
    let order : Order :=
      { id := st.nextId
        encryptedPayload := raw.payload.getD .unparseable
        commitment := raw.commitment.getD ""
        nullifier := raw.nullifier.getD ""
        tokenAddress := raw.tokenAddress.getD ""
        timestamp := now
        status := .pending
        encryptedSide := raw.encryptedSide.getD .undecodable }
    ({ st with
        orderBooks := bookPush st.orderBooks order.tokenAddress order
        stats := { st.stats with totalOrders := st.stats.totalOrders + 1 }
        nextId := st.nextId + 1 },
     .ok { orderId := order.id, timestamp := now, status := .pending
           estimatedMatchTime := getEstimatedMatchTime cfg now
           commitment := order.commitment })
  else
    (st, .error "Invalid order structure")

/-- `decryptSide`: first decoded byte even means `buy`, odd means `sell`;
an empty decode gives `sell` (`undefined % 2 === 0` is false), and a
throwing decode is caught and defaulted to `buy`. -/
def decryptSide : EncSide → Side
  | .bytes (b :: _) => if b % 2 = 0 then .buy else .sell
  | .bytes [] => .sell
  | .undecodable => .buy

/-- Swap two positions of a list (no-op when out of bounds). -/
def listSwap {α : Type} (l : List α) (i j : Nat) : List α :=
  match l[i]?, l[j]? with
  | some a, some b => (l.set i b).set j a
  | _, _ => l

/-- The loop of `shuffleArray` (Fisher-Yates): for `i` from `n-1` down to
`1`, swap position `i` with position `rand i % (i+1)`; `rand` models the
draws of `Math.floor(Math.random() * (i + 1))` before the modulus. -/
def fisherYatesGo {α : Type} (rand : Nat → Nat) : List α → Nat → List α
  | l, 0 => l
  | l, i + 1 => fisherYatesGo rand (listSwap l (i + 1) (rand (i + 1) % (i + 2))) i

/-- `shuffleArray`, as a pure function of the random draws. -/
def fisherYates {α : Type} (rand : Nat → Nat) (l : List α) : List α :=
  fisherYatesGo rand l (l.length - 1)

/-- The pending orders of a book (`orders.filter(o => o.status === 'pending')`). -/
def pendingOf (orders : List Order) : List Order :=
  orders.filter fun o => o.status = .pending

/-- The pending orders whose side resolves to `buy` (this includes every
order whose side resolution throws, by `decryptSide`'s default). -/
def buyPartition (orders : List Order) : List Order :=
  (pendingOf orders).filter fun o => decryptSide o.encryptedSide = .buy

/-- The pending orders of the `else` branch, i.e. side resolved to `sell`. -/
def sellPartition (orders : List Order) : List Order :=
  (pendingOf orders).filter fun o => ¬decryptSide o.encryptedSide = .buy

/-- The buy partition after its anti-correlation shuffle. -/
def shuffledBuys (randB : Nat → Nat) (orders : List Order) : List Order :=
  fisherYates randB (buyPartition orders)

/-- The sell partition after its anti-correlation shuffle. -/
def shuffledSells (randS : Nat → Nat) (orders : List Order) : List Order :=
  fisherYates randS (sellPartition orders)

/-- `Math.min(buyOrders.length, sellOrders.length)`. -/
def pairCount (randB randS : Nat → Nat) (orders : List Order) : Nat :=
  min (shuffledBuys randB orders).length (shuffledSells randS orders).length

/-- The matches formed by pairing corresponding shuffled positions. -/
def formedMatches (randB randS : Nat → Nat) (baseId now : Nat) (token : String)
    (orders : List Order) : List Match :=
  (((shuffledBuys randB orders).take (pairCount randB randS orders)).zip
      ((shuffledSells randS orders).take (pairCount randB randS orders))).enum.map fun p =>
    { id := baseId + p.1, buyOrder := p.2.1, sellOrder := p.2.2
      tokenAddress := token, timestamp := now }

/-- `findMatches` on one token's book: partition the pending orders by
resolved side, shuffle each partition, pair corresponding positions of the
first `min` entries, and mark the paired orders `matched` in the book.
`randB`/`randS` are the two shuffles' random draws, `baseId` feeds the
match uuids, `now` is `Date.now()`.  Returns the matches and the updated
book (the source mutates the order objects in place; order ids are unique,
so update-by-id is the same mutation). -/
def findMatches (randB randS : Nat → Nat) (baseId now : Nat) (token : String)
    (orders : List Order) : List Match × List Order :=
  (formedMatches randB randS baseId now token orders,
   orders.map fun o =>
     if (formedMatches randB randS baseId now token orders).any
         (fun m => m.buyOrder.id = o.id || m.sellOrder.id = o.id) then
       { o with status := .matched }
     else o)

/-- One book entry's contribution of matches in `runMatchingCycle`: entries
whose total order count (any status) is below `minBatchSize` are skipped. -/
def cycleEntryMatches (cfg : Config) (randB randS : String → Nat → Nat)
    (baseId now : Nat) (e : String × List Order) : List Match :=
  if e.2.length < cfg.minBatchSize then []
  else (findMatches (randB e.1) (randS e.1) baseId now e.1 e.2).1

/-- One book entry after a `runMatchingCycle` pass. -/
def cycleEntryBook (cfg : Config) (randB randS : String → Nat → Nat)
    (baseId now : Nat) (e : String × List Order) : String × List Order :=
  if e.2.length < cfg.minBatchSize then e
  else (e.1, (findMatches (randB e.1) (randS e.1) baseId now e.1 e.2).2)

/-- `runMatchingCycle`: visit every book entry in insertion order, skip the
small ones, and collect the formed matches (their execution is dispatched
separately, after random delays). -/
def runMatchingCycle (cfg : Config) (randB randS : String → Nat → Nat)
    (baseId now : Nat) (st : EngineState) : EngineState × List Match :=
  ({ st with orderBooks := st.orderBooks.map (cycleEntryBook cfg randB randS baseId now) },
   st.orderBooks.flatMap (cycleEntryMatches cfg randB randS baseId now))

/-- `cancelOrder`'s scan of one book: remove the first order matching
nullifier, commitment and `pending` status; `none` when no order matches. -/
def cancelFromOrders (n c : String) : List Order → Option (List Order)
  | [] => none
  | o :: rest =>
    if o.nullifier = n ∧ o.commitment = c ∧ o.status = .pending then some rest
    else (cancelFromOrders n c rest).map (o :: ·)

/-- `cancelOrder`'s scan over the books in insertion order. -/
def cancelInBooks (n c : String) :
    List (String × List Order) → Option (List (String × List Order))
  | [] => none
  | e :: rest =>
    match cancelFromOrders n c e.2 with
    | some os => some ((e.1, os) :: rest)
    | none => (cancelInBooks n c rest).map (e :: ·)

/-- `cancelOrder(nullifier, commitment)`: returns the new state and the
success flag (`{success, message}` in the source). -/
def cancelOrder (st : EngineState) (n c : String) : EngineState × Bool :=
  match cancelInBooks n c st.orderBooks with
  | some books => ({ st with orderBooks := books }, true)
  | none => (st, false)

/-- `decryptOrderForExecution`: parse the payload and apply the `||`
defaults (`amount || 100`, `maxPrice || Infinity`, `minPrice || 0`); a
throwing parse yields all three defaults. -/
def decryptOrderForExecution (o : Order) : ExecDetails :=
  match o.encryptedPayload with
  | .data d =>
    { amount := match d.amount with
        | some v => if v = 0 then 100 else v
        | none => 100
      maxPrice := match d.maxPrice with
        | some v => if v = 0 then .posInf else .num v
        | none => .posInf
      minPrice := d.minPrice.getD 0 }
  | .unparseable => { amount := 100, maxPrice := .posInf, minPrice := 0 }

/-- The midpoint `(buy.maxPrice + sell.minPrice) / 2`. -/
def execMidpoint (b s : ExecDetails) : JsNum :=
  (b.maxPrice.add (.num s.minPrice)).half

/-- `calculateExecutionPrice`: midpoint plus `(r - 0.5) * 0.001 * midpoint`
noise, clamped by `Math.max(0, ...)`; `r` models the `Math.random()` draw. -/
def calculateExecutionPrice (r : ℚ) (b s : ExecDetails) : JsNum :=
  let midpoint := execMidpoint b s
  let noise := midpoint.scale ((r - 1 / 2) * (1 / 1000))
  (midpoint.add noise).max0

/-- `removeMatchedOrders`: filter both matched ids out of the match's
token's book (no-op when that book is absent). -/
def removeMatchedOrders (books : List (String × List Order)) (m : Match) :
    List (String × List Order) :=
  match books with
  | [] => []
  | e :: rest =>
    if e.1 = m.tokenAddress then
      (e.1, e.2.filter fun o => ¬o.id = m.buyOrder.id ∧ ¬o.id = m.sellOrder.id) :: rest
    else e :: removeMatchedOrders rest m

/-- Set the status of the orders with the given ids, wherever they sit
(this is the in-place mutation `order.status = ...` through the references
held by a match). -/
def setStatusById (books : List (String × List Order)) (ids : List Nat)
    (s : OrderStatus) : List (String × List Order) :=
  books.map fun e => (e.1, e.2.map fun o => if o.id ∈ ids then { o with status := s } else o)

/-- The outcome of the external `anoncoinService.executeSwap` call; the
engine is constructed with or without the service (`Option`), and treats
the call as opaque: it either resolves with a transaction id or rejects. -/
inductive SwapOutcome where
  | ok (txId : String)
  | err (msg : String)

/-- `executeMatch`: decrypt both orders, price and size the fill, call the
settlement service when present; on a rejected swap revert both orders to
`pending` and rethrow (result `none`); otherwise build the `Execution`
record, update the statistics, remove the matched orders from the book and
index the record under both nullifiers.  `svc` is the service together with
its call's outcome (`none` when the engine has no settlement service),
`r` the `Math.random()` draw of the price noise, `now` is `Date.now()`. -/
def executeMatch (svc : Option SwapOutcome) (r : ℚ) (now : Nat)
    (st : EngineState) (m : Match) : EngineState × Option Execution :=
  let bD := decryptOrderForExecution m.buyOrder
  let sD := decryptOrderForExecution m.sellOrder
  let price := calculateExecutionPrice r bD sD
  let amount := min bD.amount sD.amount
  match svc with
  | some (.err _) =>
    ({ st with orderBooks := setStatusById st.orderBooks [m.buyOrder.id, m.sellOrder.id] .pending },
     none)
  | _ =>
    let exec : Execution :=
      { id := st.nextId, matchId := m.id, tokenAddress := m.tokenAddress
        price := price, amount := amount, timestamp := now
        buyCommitment := m.buyOrder.commitment, sellCommitment := m.sellOrder.commitment
        executedOnChain := true, swapStatus := "completed" }
    ({ st with
        orderBooks := removeMatchedOrders st.orderBooks m
        pendingMatches :=
          mapSet (mapSet st.pendingMatches m.buyOrder.nullifier
              { execution := exec, side := .buy, fillAmount := amount })
            m.sellOrder.nullifier
            { execution := exec, side := .sell, fillAmount := amount }
        stats := { st.stats with
          totalMatches := st.stats.totalMatches + 1
          totalExecuted := st.stats.totalExecuted + 1
          totalVolume := st.stats.totalVolume.add (price.scale amount)
          lastMatchTime := some now
          lastExecutionTime := some now }
        nextId := st.nextId + 1 },
     some exec)

/-- The body of the delayed task of `executeMatches`: run `executeMatch`
and, if it threw, return the match's orders to the pool (again). -/
def dispatchMatch (svc : Option SwapOutcome) (r : ℚ) (now : Nat)
    (st : EngineState) (m : Match) : EngineState :=
  match executeMatch svc r now st m with
  | (st', some _) => st'
  | (st', none) =>
    { st' with orderBooks := setStatusById st'.orderBooks [m.buyOrder.id, m.sellOrder.id] .pending }

/-- `checkMatchStatus(nullifier)`. -/
def checkMatchStatus (st : EngineState) (n : String) : Option ExecRecord :=
  mapGet st.pendingMatches n

/-- One externally driven engine operation (submission, cancellation, a
scheduler tick, or one delayed settlement task firing with its outcome). -/
inductive Op where
  | submit (now : Nat) (raw : RawOrder)
  | cancel (n c : String)
  | cycle (randB randS : String → Nat → Nat) (baseId now : Nat)
  | settle (svc : Option SwapOutcome) (r : ℚ) (now : Nat) (m : Match)

/-- Apply one operation to the engine state. -/
def stepOp (cfg : Config) (st : EngineState) : Op → EngineState
  | .submit now raw => (submitOrder cfg now st raw).1
  | .cancel n c => (cancelOrder st n c).1
  | .cycle randB randS baseId now => (runMatchingCycle cfg randB randS baseId now st).1
  | .settle svc r now m => dispatchMatch svc r now st m

/-- Run a sequence of operations. -/
def runOps (cfg : Config) (st : EngineState) (ops : List Op) : EngineState :=
  ops.foldl (stepOp cfg) st

/-- The multiset of nullifiers held across all books. -/
def booksNullifiers (books : List (String × List Order)) : List String :=
  books.flatMap fun e => e.2.map (·.nullifier)

/-- The nullifiers of the successfully admitted submissions of a trace. -/
def validSubmitNullifiers : List Op → List String
  | [] => []
  | .submit _ raw :: rest =>
    if validateEncryptedOrder raw then raw.nullifier.getD "" :: validSubmitNullifiers rest
    else validSubmitNullifiers rest
  | _ :: rest => validSubmitNullifiers rest

/-- Total number of orders across all books. -/
def booksOrderCount (books : List (String × List Order)) : Nat :=
  (books.flatMap (·.2)).length

/-! ### Cancellation (claim C4) -/

lemma cancelFromOrders_isSome_iff (n c : String) (os : List Order) :
    (cancelFromOrders n c os).isSome = true ↔
      ∃ o ∈ os, o.nullifier = n ∧ o.commitment = c ∧ o.status = .pending := by
  induction os with
  | nil => simp [cancelFromOrders]
  | cons o rest ih =>
    by_cases h : o.nullifier = n ∧ o.commitment = c ∧ o.status = .pending
    · simp [cancelFromOrders, h]
    · simp only [cancelFromOrders, if_neg h, Option.isSome_map'] at *
      simp only [List.mem_cons, ih]
      constructor
      · rintro ⟨o', ho', hp⟩; exact ⟨o', Or.inr ho', hp⟩
      · rintro ⟨o', ho' | ho', hp⟩
        · exact absurd (ho' ▸ hp) h
        · exact ⟨o', ho', hp⟩

lemma cancelFromOrders_length (n c : String) :
    ∀ (os os' : List Order), cancelFromOrders n c os = some os' →
      os'.length + 1 = os.length := by
  intro os
  induction os with
  | nil => intro os' h; simp [cancelFromOrders] at h
  | cons o rest ih =>
    intro os' h
    by_cases hp : o.nullifier = n ∧ o.commitment = c ∧ o.status = .pending
    · simp only [cancelFromOrders, if_pos hp, Option.some.injEq] at h
      subst h; simp
    · simp only [cancelFromOrders, if_neg hp, Option.map_eq_some'] at h
      obtain ⟨t, ht, rfl⟩ := h
      simp [← ih t ht]

lemma cancelInBooks_isSome_iff (n c : String) (books : List (String × List Order)) :
    (cancelInBooks n c books).isSome = true ↔
      ∃ e ∈ books, ∃ o ∈ e.2,
        o.nullifier = n ∧ o.commitment = c ∧ o.status = .pending := by
  induction books with
  | nil => simp [cancelInBooks]
  | cons e rest ih =>
    cases he : cancelFromOrders n c e.2 with
    | some os =>
      have : (cancelFromOrders n c e.2).isSome = true := by simp [he]
      rw [cancelFromOrders_isSome_iff] at this
      obtain ⟨o, ho, hp⟩ := this
      simp only [cancelInBooks, he, List.mem_cons]
      constructor
      · intro _; exact ⟨e, Or.inl rfl, o, ho, hp⟩
      · simp
    | none =>
      have hno : ¬∃ o ∈ e.2, o.nullifier = n ∧ o.commitment = c ∧ o.status = .pending := by
        rw [← cancelFromOrders_isSome_iff]; simp [he]
      simp only [cancelInBooks, he, Option.isSome_map', ih, List.mem_cons]
      constructor
      · rintro ⟨e', he', hp⟩; exact ⟨e', Or.inr he', hp⟩
      · rintro ⟨e', he' | he', hp⟩
        · exact absurd (he' ▸ hp) hno
        · exact ⟨e', he', hp⟩

lemma cancelInBooks_count (n c : String) :
    ∀ (books books' : List (String × List Order)), cancelInBooks n c books = some books' →
      booksOrderCount books' + 1 = booksOrderCount books := by
  intro books
  induction books with
  | nil => intro b' h; simp [cancelInBooks] at h
  | cons e rest ih =>
    intro b' h
    cases he : cancelFromOrders n c e.2 with
    | some os =>
      simp only [cancelInBooks, he, Option.some.injEq] at h
      subst h
      have := cancelFromOrders_length n c e.2 os he
      simp [booksOrderCount, List.flatMap_cons, ← this]
      omega
    | none =>
      simp only [cancelInBooks, he, Option.map_eq_some'] at h
      obtain ⟨t, ht, rfl⟩ := h
      have := ih t ht
      simp [booksOrderCount, List.flatMap_cons] at *
      omega

/-- Claim C4: `cancelOrder(nullifier, commitment)` succeeds if and only if
some book holds an order with that nullifier, that commitment and status
`pending` (so a `matched` or later order is never cancellable); on failure
the state is unchanged, and on success exactly one order is removed. -/
theorem cancelOrder_success_iff (st : EngineState) (n c : String) :
    ((cancelOrder st n c).2 = true ↔
      ∃ e ∈ st.orderBooks, ∃ o ∈ e.2,
        o.nullifier = n ∧ o.commitment = c ∧ o.status = .pending)
    ∧ ((cancelOrder st n c).2 = false → (cancelOrder st n c).1 = st)
    ∧ ((cancelOrder st n c).2 = true →
        booksOrderCount (cancelOrder st n c).1.orderBooks + 1 =
          booksOrderCount st.orderBooks) := by
  cases h : cancelInBooks n c st.orderBooks with
  | some books' =>
    have hiff := (cancelInBooks_isSome_iff n c st.orderBooks).mp (by simp [h])
    refine ⟨⟨fun _ => hiff, fun _ => ?_⟩, ?_, fun _ => ?_⟩
    · simp [cancelOrder, h]
    · intro hfalse; simp [cancelOrder, h] at hfalse
    · simpa [cancelOrder, h] using cancelInBooks_count n c st.orderBooks books' h
  | none =>
    have hiff : ¬∃ e ∈ st.orderBooks, ∃ o ∈ e.2,
        o.nullifier = n ∧ o.commitment = c ∧ o.status = .pending := by
      rw [← cancelInBooks_isSome_iff]; simp [h]
    refine ⟨⟨fun habs => ?_, fun habs => absurd habs hiff⟩, fun _ => ?_, fun habs => ?_⟩
    · simp [cancelOrder, h] at habs
    · simp [cancelOrder, h]
    · simp [cancelOrder, h] at habs

/-- Witness for C4 at a concrete state: one pending order is cancellable. -/
theorem cancelOrder_success_iff_witness :
    let o : Order := { id := 0, encryptedPayload := .unparseable, commitment := "c0"
                       nullifier := "n0", tokenAddress := "T", timestamp := 0
                       status := .pending, encryptedSide := .bytes [0] }
    let st : EngineState := { initialState with orderBooks := [("T", [o])] }
    (cancelOrder st "n0" "c0").2 = true ∧
      booksOrderCount (cancelOrder st "n0" "c0").1.orderBooks + 1 =
        booksOrderCount st.orderBooks := by
  intro o st
  have h := cancelOrder_success_iff st "n0" "c0"
  have hs : (cancelOrder st "n0" "c0").2 = true :=
    h.1.mpr ⟨("T", [o]), by simp, o, by simp, rfl, rfl, rfl⟩
  exact ⟨hs, h.2.2 hs⟩

/-! ### Submission validation (claim C8) -/

lemma validateEncryptedOrder_eq_false_iff (raw : RawOrder) :
    validateEncryptedOrder raw = false ↔
      (raw.payload = .missing ∨ raw.payload = .empty) ∨
      (raw.commitment = .missing ∨ raw.commitment = .empty) ∨
      (raw.nullifier = .missing ∨ raw.nullifier = .empty) ∨
      (raw.tokenAddress = .missing ∨ raw.tokenAddress = .empty) ∨
      (raw.encryptedSide = .missing ∨ raw.encryptedSide = .empty) := by
  rcases raw with ⟨p, c, n, t, s⟩
  cases p <;> cases c <;> cases n <;> cases t <;> cases s <;>
    simp [validateEncryptedOrder, JsVal.isVal]

/-- Claim C8: `submitOrder` throws the structural-validation error exactly
when one of the five required fields is missing or empty; on rejection the
whole state (books, counters) is unchanged; and validation is insensitive
to the payload's contents. -/
theorem submitOrder_validation (cfg : Config) (now : Nat) (st : EngineState)
    (raw : RawOrder) :
    ((submitOrder cfg now st raw).2 = .error "Invalid order structure" ↔
      (raw.payload = .missing ∨ raw.payload = .empty) ∨
      (raw.commitment = .missing ∨ raw.commitment = .empty) ∨
      (raw.nullifier = .missing ∨ raw.nullifier = .empty) ∨
      (raw.tokenAddress = .missing ∨ raw.tokenAddress = .empty) ∨
      (raw.encryptedSide = .missing ∨ raw.encryptedSide = .empty))
    ∧ ((submitOrder cfg now st raw).2 = .error "Invalid order structure" →
        (submitOrder cfg now st raw).1 = st)
    ∧ (∀ p₁ p₂ : Payload,
        validateEncryptedOrder { raw with payload := .val p₁ } =
          validateEncryptedOrder { raw with payload := .val p₂ }) := by
  by_cases h : validateEncryptedOrder raw = true
  · refine ⟨?_, ?_, ?_⟩
    · rw [← validateEncryptedOrder_eq_false_iff]
      simp [submitOrder, h]
    · simp [submitOrder, h]
    · intro p₁ p₂; simp [validateEncryptedOrder, JsVal.isVal]
  · rw [Bool.not_eq_true] at h
    refine ⟨?_, ?_, ?_⟩
    · rw [← validateEncryptedOrder_eq_false_iff]
      simp [submitOrder, h]
    · intro _; simp [submitOrder, h]
    · intro p₁ p₂; simp [validateEncryptedOrder, JsVal.isVal]

/-- Witness for C8: a submission with an empty nullifier is rejected and
the state is untouched. -/
theorem submitOrder_validation_witness :
    let raw : RawOrder := { payload := .val .unparseable, commitment := .val "c"
                            nullifier := .empty, tokenAddress := .val "T"
                            encryptedSide := .val (.bytes [0]) }
    (submitOrder (defaultConfig none) 0 initialState raw).2 =
        .error "Invalid order structure" ∧
      (submitOrder (defaultConfig none) 0 initialState raw).1 = initialState := by
  intro raw
  have h := submitOrder_validation (defaultConfig none) 0 initialState raw
  have he : (submitOrder (defaultConfig none) 0 initialState raw).2 =
      .error "Invalid order structure" :=
    h.1.mpr (Or.inr (Or.inr (Or.inl (Or.inr rfl))))
  exact ⟨he, h.2.1 he⟩

/-! ### The shuffle is a permutation -/

lemma getElem_cons_set_perm {α : Type} :
    ∀ (t : List α) (m : Nat) (hm : m < t.length) (x : α),
      List.Perm (t.get ⟨m, hm⟩ :: t.set m x) (x :: t) := by
  intro t
  induction t with
  | nil => intro m hm x; simp at hm
  | cons a t' ih =>
    intro m hm x
    cases m with
    | zero => exact List.Perm.swap x a t'
    | succ k =>
      have hk : k < t'.length := by simpa using hm
      show List.Perm (t'.get ⟨k, hk⟩ :: a :: t'.set k x) (x :: a :: t')
      exact (List.Perm.swap a (t'.get ⟨k, hk⟩) _).trans (((ih k hk x).cons a).trans
        (List.Perm.swap x a t'))

lemma set_set_getElem_perm {α : Type} :
    ∀ (l : List α) (i j : Nat) (hi : i < l.length) (hj : j < l.length),
      List.Perm ((l.set i (l.get ⟨j, hj⟩)).set j (l.get ⟨i, hi⟩)) l := by
  intro l
  induction l with
  | nil => intro i j hi _; simp at hi
  | cons x t ih =>
    intro i j hi hj
    cases i with
    | zero =>
      cases j with
      | zero => exact List.Perm.refl _
      | succ m =>
        have hm : m < t.length := by simpa using hj
        show List.Perm (t.get ⟨m, hm⟩ :: t.set m x) (x :: t)
        exact getElem_cons_set_perm t m hm x
    | succ k =>
      cases j with
      | zero =>
        have hk : k < t.length := by simpa using hi
        show List.Perm (t.get ⟨k, hk⟩ :: t.set k x) (x :: t)
        exact getElem_cons_set_perm t k hk x
      | succ m =>
        have hk : k < t.length := by simpa using hi
        have hm : m < t.length := by simpa using hj
        show List.Perm (x :: (t.set k (t.get ⟨m, hm⟩)).set m (t.get ⟨k, hk⟩)) (x :: t)
        exact (ih k m hk hm).cons x

lemma listSwap_perm {α : Type} (l : List α) (i j : Nat) :
    List.Perm (listSwap l i j) l := by
  unfold listSwap
  cases hi : l[i]? with
  | none => cases l[j]? <;> exact List.Perm.refl l
  | some a =>
    cases hj : l[j]? with
    | none => exact List.Perm.refl l
    | some b =>
      obtain ⟨hi', rfl⟩ := List.getElem?_eq_some.mp hi
      obtain ⟨hj', rfl⟩ := List.getElem?_eq_some.mp hj
      exact set_set_getElem_perm l i j hi' hj'

lemma fisherYatesGo_perm {α : Type} (rand : Nat → Nat) :
    ∀ (k : Nat) (l : List α), List.Perm (fisherYatesGo rand l k) l := by
  intro k
  induction k with
  | zero => intro l; exact List.Perm.refl l
  | succ i ih =>
    intro l
    exact (ih _).trans (listSwap_perm l (i + 1) (rand (i + 1) % (i + 2)))

lemma fisherYates_perm {α : Type} (rand : Nat → Nat) (l : List α) :
    List.Perm (fisherYates rand l) l :=
  fisherYatesGo_perm rand (l.length - 1) l

lemma fisherYates_length {α : Type} (rand : Nat → Nat) (l : List α) :
    (fisherYates rand l).length = l.length :=
  (fisherYates_perm rand l).length_eq

/-! ### Match counting -/

lemma findMatches_fst_length (randB randS : Nat → Nat) (baseId now : Nat)
    (token : String) (orders : List Order) :
    (findMatches randB randS baseId now token orders).1.length =
      min (buyPartition orders).length (sellPartition orders).length := by
  have hb := fisherYates_length randB (buyPartition orders)
  have hs := fisherYates_length randS (sellPartition orders)
  simp only [findMatches, formedMatches, shuffledBuys, shuffledSells, pairCount,
    List.length_map, List.enum_length, List.length_zip, List.length_take]
  omega

lemma partition_length_split (orders : List Order) :
    (buyPartition orders).length + (sellPartition orders).length =
      (pendingOf orders).length := by
  have h := List.length_eq_countP_add_countP
    (p := fun o => decide (decryptSide o.encryptedSide = Side.buy)) (l := pendingOf orders)
  have hfx : (fun (a : Order) => decide (¬decide (decryptSide a.encryptedSide = Side.buy) = true))
      = fun o => decide (¬decryptSide o.encryptedSide = Side.buy) := by
    funext a
    by_cases hb : decryptSide a.encryptedSide = Side.buy <;> simp [hb]
  rw [hfx] at h
  simp only [buyPartition, sellPartition, ← List.countP_eq_length_filter]
  omega

/-! ### Claim C3: the liquidity gate -/

/-- Claim C3 (amended): a matching pass produces zero matches for a token
when the total number of orders in its book (any status) is below
`minBatchSize` — the gate the code actually applies — and, independently of
`minBatchSize`, when fewer than two pending orders are present (so with the
constructor's fixed `minBatchSize = 2` the claim's conclusion holds). -/
theorem cycleEntryMatches_liquidity_gate (cfg : Config) (randB randS : String → Nat → Nat)
    (baseId now : Nat) (e : String × List Order) :
    (e.2.length < cfg.minBatchSize → cycleEntryMatches cfg randB randS baseId now e = [])
    ∧ ((pendingOf e.2).length < 2 → cycleEntryMatches cfg randB randS baseId now e = []) := by
  constructor
  · intro h; simp [cycleEntryMatches, h]
  · intro h
    by_cases hlen : e.2.length < cfg.minBatchSize
    · simp [cycleEntryMatches, hlen]
    · simp only [cycleEntryMatches, if_neg hlen]
      apply List.eq_nil_of_length_eq_zero
      have hmin := findMatches_fst_length (randB e.1) (randS e.1) baseId now e.1 e.2
      have hsplit := partition_length_split e.2
      omega

/-- Witness for C3 (amended) at a concrete entry with one pending order. -/
theorem cycleEntryMatches_liquidity_gate_witness :
    ((pendingOf [{ id := 0, encryptedPayload := .unparseable, commitment := "c0"
                   nullifier := "n0", tokenAddress := "T", timestamp := 0
                   status := .pending, encryptedSide := .bytes [0] }]).length < 2)
    ∧ cycleEntryMatches (defaultConfig none) (fun _ _ => 0) (fun _ _ => 0) 0 0
        ("T", [{ id := 0, encryptedPayload := .unparseable, commitment := "c0"
                 nullifier := "n0", tokenAddress := "T", timestamp := 0
                 status := .pending, encryptedSide := .bytes [0] }]) = [] :=
  ⟨by decide,
   (cycleEntryMatches_liquidity_gate (defaultConfig none) (fun _ _ => 0) (fun _ _ => 0) 0 0
     ("T", [{ id := 0, encryptedPayload := .unparseable, commitment := "c0"
              nullifier := "n0", tokenAddress := "T", timestamp := 0
              status := .pending, encryptedSide := .bytes [0] }])).2 (by decide)⟩

/-- A pending buy order (first side byte even), for the C3 counterexample. -/
def c3Buy : Order :=
  { id := 0, encryptedPayload := .unparseable, commitment := "cb", nullifier := "nb"
    tokenAddress := "T", timestamp := 0, status := .pending, encryptedSide := .bytes [0] }

/-- A pending sell order (first side byte odd), for the C3 counterexample. -/
def c3Sell : Order :=
  { id := 1, encryptedPayload := .unparseable, commitment := "cs", nullifier := "ns"
    tokenAddress := "T", timestamp := 0, status := .pending, encryptedSide := .bytes [1] }

/-- A stale already-matched order still sitting in the book (it is removed
only when its settlement task fires), for the C3 counterexample. -/
def c3Stale : Order :=
  { id := 2, encryptedPayload := .unparseable, commitment := "cm", nullifier := "nm"
    tokenAddress := "T", timestamp := 0, status := .matched, encryptedSide := .bytes [0] }

/-- A configuration with `minBatchSize = 3` (the spec treats `minBatchSize`
as configurable; the constructor's value is 2). -/
def c3Config : Config :=
  { matchingInterval := 5000, minBatchSize := 3, maxBatchSize := 100
    executionDelayMin := 1000, executionDelayMax := 10000, feeRate := 3 / 1000 }

/-- Counterexample to C3 as stated: with `minBatchSize = 3`, a book holding
two pending orders (one per side) plus one stale matched order passes the
gate — which counts all orders, not pending ones — and the pass forms a
match even though the pending count (2) is below `minBatchSize` (3). -/
theorem cycleEntryMatches_pending_gate_counterexample :
    (pendingOf [c3Buy, c3Sell, c3Stale]).length < c3Config.minBatchSize ∧
      cycleEntryMatches c3Config (fun _ _ => 0) (fun _ _ => 0) 0 0
        ("T", [c3Buy, c3Sell, c3Stale]) ≠ [] := by
  constructor
  · decide
  · decide

/-! ### Claim C2: side-resolution failures are not skipped -/

/-- Claim C2 (amended): an order whose side resolution throws is not
skipped; `decryptSide` catches the failure and defaults it to `buy`, so the
order lands in the buy partition and is paired like any resolved buy. -/
theorem undecodable_side_defaults_to_buy (orders : List Order) (o : Order)
    (ho : o ∈ orders) (hp : o.status = .pending)
    (hs : o.encryptedSide = .undecodable) :
    decryptSide o.encryptedSide = .buy ∧ o ∈ buyPartition orders := by
  refine ⟨by rw [hs]; rfl, ?_⟩
  simp only [buyPartition, pendingOf, List.mem_filter, ho, hp, hs]
  simp [decryptSide]

/-- Witness for C2 (amended). -/
theorem undecodable_side_defaults_to_buy_witness :
    let u : Order := { id := 0, encryptedPayload := .unparseable, commitment := "cu"
                       nullifier := "nu", tokenAddress := "T", timestamp := 0
                       status := .pending, encryptedSide := .undecodable }
    decryptSide u.encryptedSide = .buy ∧ u ∈ buyPartition [u] := by
  intro u
  exact undecodable_side_defaults_to_buy [u] u (by simp) rfl rfl

/-- An order whose side resolution throws, for the C2 counterexample. -/
def c2U : Order :=
  { id := 0, encryptedPayload := .unparseable, commitment := "cu", nullifier := "nu"
    tokenAddress := "T", timestamp := 0, status := .pending, encryptedSide := .undecodable }

/-- A resolvable pending sell order, for the C2 counterexample. -/
def c2S : Order :=
  { id := 1, encryptedPayload := .unparseable, commitment := "cs", nullifier := "ns"
    tokenAddress := "T", timestamp := 0, status := .pending, encryptedSide := .bytes [1] }

/-- Counterexample to C2 as stated: the order with the unresolvable side is
not left pending — it appears as the buy of the single formed match and its
status is `matched` after the pass. -/
theorem undecodable_not_skipped_counterexample :
    c2U.encryptedSide = .undecodable ∧ c2U.status = .pending ∧
      ((findMatches (fun _ => 0) (fun _ => 0) 0 0 "T" [c2U, c2S]).1.map
        fun m => m.buyOrder.id) = [c2U.id] ∧
      ((findMatches (fun _ => 0) (fun _ => 0) 0 0 "T" [c2U, c2S]).2.map
        fun o => (o.id, o.status)) = [(0, .matched), (1, .matched)] := by
  refine ⟨rfl, rfl, by decide, by decide⟩

/-! ### Claim C6: the execution-price noise bound -/

/-- Claim C6 (amended): when the buy side's decrypted `maxPrice` is finite
and the midpoint is nonnegative, the execution price differs from the
midpoint by at most `0.05%` of it (`noise = (r - 0.5) * 0.001 * midpoint`
with `r ∈ [0, 1)`).  The unamended claim fails for the documented defaults
(`maxPrice = Infinity`) and for negative midpoints, where the
`Math.max(0, ...)` clamp moves the price to `0`. -/
theorem executionPrice_noise_bound (r p : ℚ) (b s : ExecDetails)
    (hr0 : 0 ≤ r) (hr1 : r < 1) (hmax : b.maxPrice = .num p)
    (hm : 0 ≤ (p + s.minPrice) / 2) :
    ∃ x : ℚ, calculateExecutionPrice r b s = .num x ∧
      |x - (p + s.minPrice) / 2| ≤ 1 / 2000 * ((p + s.minPrice) / 2) := by
  set m := (p + s.minPrice) / 2 with hmdef
  set cr := (r - 1 / 2) * (1 / 1000) with hcr
  have hmid : execMidpoint b s = .num m := by
    simp [execMidpoint, hmax, JsNum.add, JsNum.half, hmdef]
  have hcrabs : |cr| ≤ 1 / 2000 := by
    rw [hcr, abs_mul]
    have h1 : |r - 1 / 2| ≤ 1 / 2 := abs_le.mpr ⟨by linarith, by linarith⟩
    have h2 : |(1 : ℚ) / 1000| = 1 / 1000 := by norm_num
    rw [h2]
    nlinarith [h1]
  have habs : |cr * m| ≤ 1 / 2000 * m := by
    rw [abs_mul, abs_of_nonneg hm]
    exact mul_le_mul_of_nonneg_right hcrabs hm
  have hx : 0 ≤ m + cr * m := by
    have := (abs_le.mp habs).1
    linarith
  refine ⟨m + cr * m, ?_, ?_⟩
  · rw [calculateExecutionPrice, hmid]
    simp only [JsNum.scale, JsNum.add, JsNum.max0, ← hcr]
    rw [max_eq_right hx]
  · have : m + cr * m - m = cr * m := by ring
    rw [this]
    exact habs

/-- Witness for C6 (amended) at `r = 1/4`, finite prices `10` and `6`. -/
theorem executionPrice_noise_bound_witness :
    (0 : ℚ) ≤ 1 / 4 ∧ (1 : ℚ) / 4 < 1 ∧
      (0 : ℚ) ≤ (10 + (6 : ℚ)) / 2 ∧
      ∃ x : ℚ,
        calculateExecutionPrice (1 / 4)
            { amount := 10, maxPrice := .num 10, minPrice := 0 }
            { amount := 5, maxPrice := .posInf, minPrice := 6 } = .num x ∧
          |x - (10 + (6 : ℚ)) / 2| ≤ 1 / 2000 * ((10 + (6 : ℚ)) / 2) :=
  ⟨by norm_num, by norm_num, by norm_num,
   executionPrice_noise_bound (1 / 4) 10
     { amount := 10, maxPrice := .num 10, minPrice := 0 }
     { amount := 5, maxPrice := .posInf, minPrice := 6 }
     (by norm_num) (by norm_num) rfl (by norm_num)⟩

/-- Buy order with a parseable payload carrying a negative `maxPrice`, for
the C6 counterexample. -/
def c6BuyOrder : Order :=
  { id := 10, encryptedPayload := .data { amount := some 10, maxPrice := some (-100), minPrice := none }
    commitment := "cb6", nullifier := "nb6", tokenAddress := "T", timestamp := 0
    status := .matched, encryptedSide := .bytes [0] }

/-- Sell order with a parseable payload (`minPrice = 4`), for the C6
counterexample. -/
def c6SellOrder : Order :=
  { id := 11, encryptedPayload := .data { amount := some 10, maxPrice := none, minPrice := some 4 }
    commitment := "cs6", nullifier := "ns6", tokenAddress := "T", timestamp := 0
    status := .matched, encryptedSide := .bytes [1] }

/-- Counterexample to C6 as stated: with decrypted `maxPrice = -100` and
`minPrice = 4` the midpoint is `-48`; even with zero noise (`r = 1/2`) the
`Math.max(0, ...)` clamp returns price `0`, which is `48` away from the
midpoint — far beyond `0.05%` of it (in absolute value `0.024`). -/
theorem executionPrice_noise_bound_counterexample :
    execMidpoint (decryptOrderForExecution c6BuyOrder)
        (decryptOrderForExecution c6SellOrder) = .num (-48) ∧
      calculateExecutionPrice (1 / 2) (decryptOrderForExecution c6BuyOrder)
        (decryptOrderForExecution c6SellOrder) = .num 0 ∧
      ¬(|(0 : ℚ) - -48| ≤ 1 / 2000 * |(-48 : ℚ)|) := by
  refine ⟨?_, ?_, by norm_num⟩
  · norm_num [execMidpoint, decryptOrderForExecution, c6BuyOrder, c6SellOrder,
      JsNum.add, JsNum.half]
  · norm_num [calculateExecutionPrice, execMidpoint, decryptOrderForExecution,
      c6BuyOrder, c6SellOrder, JsNum.add, JsNum.half, JsNum.scale, JsNum.max0]

/-! ### Claims C1, C9, C10: settlement -/

lemma setStatusById_status (books : List (String × List Order)) (ids : List Nat)
    (s : OrderStatus) :
    ∀ e ∈ setStatusById books ids s, ∀ o ∈ e.2, o.id ∈ ids → o.status = s := by
  intro e he o ho hid
  simp only [setStatusById, List.mem_map] at he
  obtain ⟨e₀, _, rfl⟩ := he
  simp only [List.mem_map] at ho
  obtain ⟨o₀, _, rfl⟩ := ho
  by_cases h : o₀.id ∈ ids
  · simp [h]
  · simp only [if_neg h] at hid ⊢
    exact absurd hid h

/-- Claim C1: when the settlement call rejects, `executeMatch` produces no
execution (`none`), both matched orders are back to `pending` wherever they
sit in the books, the `pendingMatches` index and the statistics are
untouched, and a status lookup of either nullifier still returns nothing. -/
theorem settlement_failure_reverts (msg : String) (r : ℚ) (now : Nat)
    (st : EngineState) (m : Match)
    (hb : checkMatchStatus st m.buyOrder.nullifier = none)
    (hs : checkMatchStatus st m.sellOrder.nullifier = none) :
    (executeMatch (some (.err msg)) r now st m).2 = none
    ∧ (∀ e ∈ (dispatchMatch (some (.err msg)) r now st m).orderBooks, ∀ o ∈ e.2,
        o.id = m.buyOrder.id ∨ o.id = m.sellOrder.id → o.status = .pending)
    ∧ (dispatchMatch (some (.err msg)) r now st m).pendingMatches = st.pendingMatches
    ∧ (dispatchMatch (some (.err msg)) r now st m).stats = st.stats
    ∧ checkMatchStatus (dispatchMatch (some (.err msg)) r now st m)
        m.buyOrder.nullifier = none
    ∧ checkMatchStatus (dispatchMatch (some (.err msg)) r now st m)
        m.sellOrder.nullifier = none := by
  have hexec : executeMatch (some (.err msg)) r now st m =
      ({ st with orderBooks :=
          setStatusById st.orderBooks [m.buyOrder.id, m.sellOrder.id] .pending }, none) := by
    rfl
  have hdisp : dispatchMatch (some (.err msg)) r now st m =
      { st with orderBooks :=
          (setStatusById
            (setStatusById st.orderBooks [m.buyOrder.id, m.sellOrder.id] .pending)
            [m.buyOrder.id, m.sellOrder.id] .pending) } := by
    rw [dispatchMatch, hexec]
  refine ⟨by rw [hexec], ?_, by rw [hdisp], by rw [hdisp], ?_, ?_⟩
  · rw [hdisp]
    intro e he o ho hid
    exact setStatusById_status _ _ _ e he o ho (by simpa using hid)
  · rw [hdisp]; exact hb
  · rw [hdisp]; exact hs

/-- Witness for C1 at a concrete failing settlement. -/
theorem settlement_failure_reverts_witness :
    checkMatchStatus initialState c2U.nullifier = none ∧
      (executeMatch (some (.err "rpc down")) 0 0 initialState
        { id := 7, buyOrder := { c2U with status := .matched }
          sellOrder := { c2S with status := .matched }
          tokenAddress := "T", timestamp := 0 }).2 = none ∧
      (dispatchMatch (some (.err "rpc down")) 0 0 initialState
        { id := 7, buyOrder := { c2U with status := .matched }
          sellOrder := { c2S with status := .matched }
          tokenAddress := "T", timestamp := 0 }).pendingMatches = [] := by
  have h := settlement_failure_reverts "rpc down" 0 0 initialState
    { id := 7, buyOrder := { c2U with status := .matched }
      sellOrder := { c2S with status := .matched }
      tokenAddress := "T", timestamp := 0 } rfl rfl
  exact ⟨rfl, h.1, h.2.2.1⟩

lemma mapGet_removeMatchedOrders (books : List (String × List Order)) (m : Match) :
    mapGet (removeMatchedOrders books m) m.tokenAddress =
      (mapGet books m.tokenAddress).map
        (List.filter fun o => ¬o.id = m.buyOrder.id ∧ ¬o.id = m.sellOrder.id) := by
  induction books with
  | nil => simp [removeMatchedOrders, mapGet]
  | cons e rest ih =>
    by_cases h : e.1 = m.tokenAddress
    · simp [removeMatchedOrders, mapGet, h]
    · simp [removeMatchedOrders, mapGet, h, ih]

/-- Claim C9: with no settlement service configured, `executeMatch` always
succeeds locally: it returns an `Execution` marked `executedOnChain = true`
with `swapStatus = "completed"` and the matched amount, removes both
orders from the match's token book, and bumps the matches/executed/volume
statistics. -/
theorem no_service_executes_locally (r : ℚ) (now : Nat) (st : EngineState) (m : Match) :
    ∃ exec : Execution,
      (executeMatch none r now st m).2 = some exec
      ∧ exec.executedOnChain = true
      ∧ exec.swapStatus = "completed"
      ∧ exec.amount = min (decryptOrderForExecution m.buyOrder).amount
          (decryptOrderForExecution m.sellOrder).amount
      ∧ exec.price = calculateExecutionPrice r (decryptOrderForExecution m.buyOrder)
          (decryptOrderForExecution m.sellOrder)
      ∧ (∀ os, mapGet (executeMatch none r now st m).1.orderBooks m.tokenAddress = some os →
          ∀ o ∈ os, ¬o.id = m.buyOrder.id ∧ ¬o.id = m.sellOrder.id)
      ∧ (executeMatch none r now st m).1.stats.totalExecuted = st.stats.totalExecuted + 1
      ∧ (executeMatch none r now st m).1.stats.totalMatches = st.stats.totalMatches + 1
      ∧ (executeMatch none r now st m).1.stats.totalVolume =
          st.stats.totalVolume.add
            ((calculateExecutionPrice r (decryptOrderForExecution m.buyOrder)
              (decryptOrderForExecution m.sellOrder)).scale
              (min (decryptOrderForExecution m.buyOrder).amount
                (decryptOrderForExecution m.sellOrder).amount)) := by
  refine ⟨_, rfl, rfl, rfl, rfl, rfl, ?_, rfl, rfl, rfl⟩
  intro os hos o ho
  rw [show (executeMatch none r now st m).1.orderBooks =
      removeMatchedOrders st.orderBooks m from rfl] at hos
  rw [mapGet_removeMatchedOrders] at hos
  cases hbase : mapGet st.orderBooks m.tokenAddress with
  | none => rw [hbase] at hos; simp at hos
  | some os₀ =>
    rw [hbase] at hos
    simp only [Option.map_some', Option.some.injEq] at hos
    subst hos
    have := List.mem_filter.mp ho
    simpa using this.2

/-- Witness for C9: a concrete service-less settlement succeeds and bumps
the executed counter. -/
theorem no_service_executes_locally_witness :
    ((executeMatch none 0 0 initialState
        { id := 7, buyOrder := { c2U with status := .matched }
          sellOrder := { c2S with status := .matched }
          tokenAddress := "T", timestamp := 0 }).2.map Execution.swapStatus) =
        some "completed" ∧
      (executeMatch none 0 0 initialState
        { id := 7, buyOrder := { c2U with status := .matched }
          sellOrder := { c2S with status := .matched }
          tokenAddress := "T", timestamp := 0 }).1.stats.totalExecuted =
        initialState.stats.totalExecuted + 1 := by
  obtain ⟨exec, h1, _, h3, _, _, _, h7, _, _⟩ := no_service_executes_locally 0 0 initialState
    { id := 7, buyOrder := { c2U with status := .matched }
      sellOrder := { c2S with status := .matched }
      tokenAddress := "T", timestamp := 0 }
  refine ⟨?_, h7⟩
  rw [h1, Option.map_some', h3]

lemma mapGet_mapSet_self {β : Type} (m : List (String × β)) (k : String) (v : β) :
    mapGet (mapSet m k v) k = some v := by
  induction m with
  | nil => simp [mapGet, mapSet]
  | cons e rest ih =>
    by_cases h : e.1 = k
    · simp [mapGet, mapSet, h]
    · simp [mapGet, mapSet, h, ih]

lemma mapGet_mapSet_ne {β : Type} (m : List (String × β)) (k k' : String) (v : β)
    (h : ¬k = k') :
    mapGet (mapSet m k v) k' = mapGet m k' := by
  induction m with
  | nil => simp [mapGet, mapSet, h]
  | cons e rest ih =>
    by_cases he : e.1 = k
    · simp [mapGet, mapSet, he, h]
    · simp only [mapSet, if_neg he, mapGet]
      by_cases he' : e.1 = k'
      · simp [he']
      · simp [he', ih]

/-- Claim C10 (amended): after a successful settlement of a match whose two
orders carry distinct nullifiers, the status lookup keyed by the buy
order's nullifier returns the execution with `side = 'buy'`, the sell
order's nullifier returns it with `side = 'sell'`, and both carry
`fillAmount` equal to the matched amount.  (With a shared nullifier the
second `Map.set` overwrites the first — see the counterexample.) -/
theorem settlement_success_status_lookup (svc : Option SwapOutcome) (r : ℚ) (now : Nat)
    (st : EngineState) (m : Match)
    (hsvc : svc = none ∨ ∃ tx, svc = some (.ok tx))
    (hne : ¬m.buyOrder.nullifier = m.sellOrder.nullifier) :
    ∃ exec : Execution,
      (executeMatch svc r now st m).2 = some exec
      ∧ checkMatchStatus (executeMatch svc r now st m).1 m.buyOrder.nullifier =
          some { execution := exec, side := .buy
                 fillAmount := min (decryptOrderForExecution m.buyOrder).amount
                   (decryptOrderForExecution m.sellOrder).amount }
      ∧ checkMatchStatus (executeMatch svc r now st m).1 m.sellOrder.nullifier =
          some { execution := exec, side := .sell
                 fillAmount := min (decryptOrderForExecution m.buyOrder).amount
                   (decryptOrderForExecution m.sellOrder).amount } := by
  rcases hsvc with rfl | ⟨tx, rfl⟩
  · refine ⟨_, rfl, ?_, ?_⟩
    · rw [show checkMatchStatus (executeMatch none r now st m).1 m.buyOrder.nullifier =
          mapGet (executeMatch none r now st m).1.pendingMatches m.buyOrder.nullifier from rfl]
      rw [show (executeMatch none r now st m).1.pendingMatches =
        mapSet (mapSet st.pendingMatches m.buyOrder.nullifier _) m.sellOrder.nullifier _ from rfl]
      rw [mapGet_mapSet_ne _ _ _ _ (fun hh => hne hh.symm), mapGet_mapSet_self]
    · rw [show checkMatchStatus (executeMatch none r now st m).1 m.sellOrder.nullifier =
          mapGet (executeMatch none r now st m).1.pendingMatches m.sellOrder.nullifier from rfl]
      rw [show (executeMatch none r now st m).1.pendingMatches =
        mapSet (mapSet st.pendingMatches m.buyOrder.nullifier _) m.sellOrder.nullifier _ from rfl]
      rw [mapGet_mapSet_self]
  · refine ⟨_, rfl, ?_, ?_⟩
    · rw [show checkMatchStatus (executeMatch (some (.ok tx)) r now st m).1 m.buyOrder.nullifier =
          mapGet (executeMatch (some (.ok tx)) r now st m).1.pendingMatches
            m.buyOrder.nullifier from rfl]
      rw [show (executeMatch (some (.ok tx)) r now st m).1.pendingMatches =
        mapSet (mapSet st.pendingMatches m.buyOrder.nullifier _) m.sellOrder.nullifier _ from rfl]
      rw [mapGet_mapSet_ne _ _ _ _ (fun hh => hne hh.symm), mapGet_mapSet_self]
    · rw [show checkMatchStatus (executeMatch (some (.ok tx)) r now st m).1 m.sellOrder.nullifier =
          mapGet (executeMatch (some (.ok tx)) r now st m).1.pendingMatches
            m.sellOrder.nullifier from rfl]
      rw [show (executeMatch (some (.ok tx)) r now st m).1.pendingMatches =
        mapSet (mapSet st.pendingMatches m.buyOrder.nullifier _) m.sellOrder.nullifier _ from rfl]
      rw [mapGet_mapSet_self]

/-- Witness for C10 (amended) at a concrete successful settlement. -/
theorem settlement_success_status_lookup_witness :
    ¬({ id := 7, buyOrder := { c2U with status := .matched }
        sellOrder := { c2S with status := .matched }
        tokenAddress := "T", timestamp := 0 } : Match).buyOrder.nullifier =
      ({ id := 7, buyOrder := { c2U with status := .matched }
         sellOrder := { c2S with status := .matched }
         tokenAddress := "T", timestamp := 0 } : Match).sellOrder.nullifier ∧
    ∃ exec : Execution,
      (executeMatch (some (.ok "tx1")) 0 0 initialState
        { id := 7, buyOrder := { c2U with status := .matched }
          sellOrder := { c2S with status := .matched }
          tokenAddress := "T", timestamp := 0 }).2 = some exec := by
  refine ⟨by decide, ?_⟩
  obtain ⟨exec, h1, _, _⟩ := settlement_success_status_lookup (some (.ok "tx1")) 0 0
    initialState
    { id := 7, buyOrder := { c2U with status := .matched }
      sellOrder := { c2S with status := .matched }
      tokenAddress := "T", timestamp := 0 }
    (Or.inr ⟨"tx1", rfl⟩) (by decide)
  exact ⟨exec, h1⟩

/-- Buy order sharing its nullifier with the sell order, for the C10
counterexample (the engine never enforces nullifier uniqueness). -/
def c10Buy : Order :=
  { id := 20, encryptedPayload := .unparseable, commitment := "cb10", nullifier := "shared"
    tokenAddress := "T", timestamp := 0, status := .matched, encryptedSide := .bytes [0] }

/-- Sell order sharing its nullifier with the buy order, for the C10
counterexample. -/
def c10Sell : Order :=
  { id := 21, encryptedPayload := .unparseable, commitment := "cs10", nullifier := "shared"
    tokenAddress := "T", timestamp := 0, status := .matched, encryptedSide := .bytes [1] }

/-- A match of the two shared-nullifier orders, for the C10 counterexample. -/
def c10Match : Match :=
  { id := 30, buyOrder := c10Buy, sellOrder := c10Sell, tokenAddress := "T", timestamp := 0 }

/-- Counterexample to C10 as stated: when both orders of a match carry the
same nullifier, the sell-side `Map.set` overwrites the buy-side record, so
the buy order's nullifier looks up `side = 'sell'`, not `'buy'`. -/
theorem settlement_success_status_lookup_counterexample :
    c10Match.buyOrder.nullifier = c10Match.sellOrder.nullifier ∧
      ((checkMatchStatus (executeMatch none 0 0 initialState c10Match).1
          c10Match.buyOrder.nullifier).map ExecRecord.side) = some .sell := by
  refine ⟨rfl, ?_⟩
  decide

/-! ### Claim C5: pairing conservation -/

lemma formedMatches_map_buyOrder (randB randS : Nat → Nat) (baseId now : Nat)
    (token : String) (orders : List Order) :
    (formedMatches randB randS baseId now token orders).map (·.buyOrder) =
      (shuffledBuys randB orders).take (pairCount randB randS orders) := by
  unfold formedMatches
  rw [List.map_map]
  rw [show ((fun m : Match => m.buyOrder) ∘ fun p : Nat × (Order × Order) =>
      ({ id := baseId + p.1, buyOrder := p.2.1, sellOrder := p.2.2
         tokenAddress := token, timestamp := now } : Match)) =
      (Prod.fst ∘ Prod.snd : Nat × (Order × Order) → Order) from rfl]
  rw [← List.map_map, List.enum_map_snd]
  refine List.map_fst_zip _ _ ?_
  simp only [List.length_take, pairCount]
  omega

lemma formedMatches_map_sellOrder (randB randS : Nat → Nat) (baseId now : Nat)
    (token : String) (orders : List Order) :
    (formedMatches randB randS baseId now token orders).map (·.sellOrder) =
      (shuffledSells randS orders).take (pairCount randB randS orders) := by
  unfold formedMatches
  rw [List.map_map]
  rw [show ((fun m : Match => m.sellOrder) ∘ fun p : Nat × (Order × Order) =>
      ({ id := baseId + p.1, buyOrder := p.2.1, sellOrder := p.2.2
         tokenAddress := token, timestamp := now } : Match)) =
      (Prod.snd ∘ Prod.snd : Nat × (Order × Order) → Order) from rfl]
  rw [← List.map_map, List.enum_map_snd]
  refine List.map_snd_zip _ _ ?_
  simp only [List.length_take, pairCount]
  omega

lemma mem_buyOrder_of_mem_formedMatches (randB randS : Nat → Nat) (baseId now : Nat)
    (token : String) (orders : List Order) (m : Match)
    (hm : m ∈ formedMatches randB randS baseId now token orders) :
    m.buyOrder ∈ buyPartition orders := by
  have h1 : m.buyOrder ∈ (formedMatches randB randS baseId now token orders).map
      (·.buyOrder) := List.mem_map_of_mem _ hm
  rw [formedMatches_map_buyOrder] at h1
  exact (fisherYates_perm randB (buyPartition orders)).subset
    (List.take_subset _ _ h1)

lemma mem_sellOrder_of_mem_formedMatches (randB randS : Nat → Nat) (baseId now : Nat)
    (token : String) (orders : List Order) (m : Match)
    (hm : m ∈ formedMatches randB randS baseId now token orders) :
    m.sellOrder ∈ sellPartition orders := by
  have h1 : m.sellOrder ∈ (formedMatches randB randS baseId now token orders).map
      (·.sellOrder) := List.mem_map_of_mem _ hm
  rw [formedMatches_map_sellOrder] at h1
  exact (fisherYates_perm randS (sellPartition orders)).subset
    (List.take_subset _ _ h1)

lemma countP_mem_eq_length {α : Type} [DecidableEq α] (l M : List α)
    (hl : l.Nodup) (hM : M.Nodup) (hsub : ∀ x ∈ M, x ∈ l) :
    l.countP (fun x => decide (x ∈ M)) = M.length := by
  rw [List.countP_eq_length_filter]
  have hfn : (l.filter fun x => decide (x ∈ M)).Nodup := hl.filter _
  have hperm : List.Perm (l.filter fun x => decide (x ∈ M)) M := by
    rw [List.perm_ext_iff_of_nodup hfn hM]
    intro a
    simp only [List.mem_filter, decide_eq_true_eq]
    exact ⟨fun h => h.2, fun h => ⟨hsub a h, h⟩⟩
  exact hperm.length_eq

/-- The ids whose orders get marked `matched` in a pass. -/
def matchedIdList (randB randS : Nat → Nat) (orders : List Order) : List Nat :=
  ((shuffledBuys randB orders).take (pairCount randB randS orders)).map (·.id) ++
    ((shuffledSells randS orders).take (pairCount randB randS orders)).map (·.id)

lemma matchedIds_iff (randB randS : Nat → Nat) (baseId now : Nat) (token : String)
    (orders : List Order) (o : Order) :
    (formedMatches randB randS baseId now token orders).any
        (fun m => m.buyOrder.id = o.id || m.sellOrder.id = o.id) = true ↔
      o.id ∈ matchedIdList randB randS orders := by
  simp only [matchedIdList, List.any_eq_true, Bool.or_eq_true, decide_eq_true_eq,
    List.mem_append, List.mem_map]
  constructor
  · rintro ⟨m, hm, hid | hid⟩
    · exact Or.inl ⟨m.buyOrder, by
        rw [← formedMatches_map_buyOrder randB randS baseId now token orders]
        exact List.mem_map_of_mem _ hm, hid⟩
    · exact Or.inr ⟨m.sellOrder, by
        rw [← formedMatches_map_sellOrder randB randS baseId now token orders]
        exact List.mem_map_of_mem _ hm, hid⟩
  · rintro (⟨x, hx, hid⟩ | ⟨x, hx, hid⟩)
    · rw [← formedMatches_map_buyOrder randB randS baseId now token orders] at hx
      obtain ⟨m, hm, rfl⟩ := List.mem_map.mp hx
      exact ⟨m, hm, Or.inl hid⟩
    · rw [← formedMatches_map_sellOrder randB randS baseId now token orders] at hx
      obtain ⟨m, hm, rfl⟩ := List.mem_map.mp hx
      exact ⟨m, hm, Or.inr hid⟩

lemma findMatches_pending_count (randB randS : Nat → Nat) (baseId now : Nat)
    (token : String) (orders : List Order)
    (h : (orders.map (·.id)).Nodup) :
    (pendingOf (findMatches randB randS baseId now token orders).2).length =
      (buyPartition orders).length + (sellPartition orders).length -
        2 * min (buyPartition orders).length (sellPartition orders).length := by
  have hlenB := fisherYates_length randB (buyPartition orders)
  have hlenS := fisherYates_length randS (sellPartition orders)
  have hn : pairCount randB randS orders =
      min (buyPartition orders).length (sellPartition orders).length := by
    simp only [pairCount, shuffledBuys, shuffledSells, hlenB, hlenS]
  have hsplit := partition_length_split orders
  -- Nodup facts about the id lists involved
  have hidsP : ((pendingOf orders).map (·.id)).Nodup :=
    List.Nodup.sublist ((List.filter_sublist orders).map _) h
  have hBsub : List.Sublist (buyPartition orders) (pendingOf orders) :=
    List.filter_sublist _
  have hSsub : List.Sublist (sellPartition orders) (pendingOf orders) :=
    List.filter_sublist _
  have hBids : ((buyPartition orders).map (·.id)).Nodup :=
    List.Nodup.sublist (hBsub.map _) hidsP
  have hSids : ((sellPartition orders).map (·.id)).Nodup :=
    List.Nodup.sublist (hSsub.map _) hidsP
  have hbSids : ((shuffledBuys randB orders).map (·.id)).Nodup :=
    (((fisherYates_perm randB (buyPartition orders)).map (·.id)).nodup_iff).mpr hBids
  have hsSids : ((shuffledSells randS orders).map (·.id)).Nodup :=
    (((fisherYates_perm randS (sellPartition orders)).map (·.id)).nodup_iff).mpr hSids
  have hbTids : (((shuffledBuys randB orders).take (pairCount randB randS orders)).map
      (·.id)).Nodup := by
    rw [List.map_take]
    exact List.Nodup.sublist (List.take_sublist _ _) hbSids
  have hsTids : (((shuffledSells randS orders).take (pairCount randB randS orders)).map
      (·.id)).Nodup := by
    rw [List.map_take]
    exact List.Nodup.sublist (List.take_sublist _ _) hsSids
  have hdisj : List.Disjoint
      (((shuffledBuys randB orders).take (pairCount randB randS orders)).map (·.id))
      (((shuffledSells randS orders).take (pairCount randB randS orders)).map (·.id)) := by
    intro x hx hx'
    obtain ⟨o₁, ho₁, rfl⟩ := List.mem_map.mp hx
    obtain ⟨o₂, ho₂, hid⟩ := List.mem_map.mp hx'
    have hB1 : o₁ ∈ buyPartition orders :=
      (fisherYates_perm randB (buyPartition orders)).subset (List.take_subset _ _ ho₁)
    have hS2 : o₂ ∈ sellPartition orders :=
      (fisherYates_perm randS (sellPartition orders)).subset (List.take_subset _ _ ho₂)
    have hP1 : o₁ ∈ pendingOf orders := (List.mem_filter.mp hB1).1
    have hP2 : o₂ ∈ pendingOf orders := (List.mem_filter.mp hS2).1
    have heq : o₂ = o₁ := List.inj_on_of_nodup_map hidsP hP2 hP1 hid
    subst heq
    have hbuy := (List.mem_filter.mp hB1).2
    have hsell := (List.mem_filter.mp hS2).2
    simp only [decide_eq_true_eq] at hbuy hsell
    exact hsell hbuy
  have hMnodup : (matchedIdList randB randS orders).Nodup :=
    List.nodup_append.mpr ⟨hbTids, hsTids, hdisj⟩
  have hMsub : ∀ x ∈ matchedIdList randB randS orders,
      x ∈ (pendingOf orders).map (·.id) := by
    intro x hx
    rcases List.mem_append.mp hx with hx | hx
    · obtain ⟨o, ho, rfl⟩ := List.mem_map.mp hx
      exact List.mem_map_of_mem _ (hBsub.subset ((fisherYates_perm randB
        (buyPartition orders)).subset (List.take_subset _ _ ho)))
    · obtain ⟨o, ho, rfl⟩ := List.mem_map.mp hx
      exact List.mem_map_of_mem _ (hSsub.subset ((fisherYates_perm randS
        (sellPartition orders)).subset (List.take_subset _ _ ho)))
  have hMlen : (matchedIdList randB randS orders).length =
      2 * pairCount randB randS orders := by
    simp only [matchedIdList, List.length_append, List.length_map, List.length_take,
      shuffledBuys, shuffledSells, hlenB, hlenS, pairCount]
    omega
  have hcount : (pendingOf orders).countP
      (fun o => (formedMatches randB randS baseId now token orders).any
        (fun m => m.buyOrder.id = o.id || m.sellOrder.id = o.id)) =
      2 * pairCount randB randS orders := by
    have hcg : (pendingOf orders).countP
        (fun o => (formedMatches randB randS baseId now token orders).any
          (fun m => m.buyOrder.id = o.id || m.sellOrder.id = o.id)) =
        (pendingOf orders).countP
          (fun o => decide (o.id ∈ matchedIdList randB randS orders)) :=
      List.countP_congr (fun o _ => by
        simp only [matchedIds_iff randB randS baseId now token orders o,
          decide_eq_true_eq])
    rw [hcg]
    rw [show (fun o : Order => decide (o.id ∈ matchedIdList randB randS orders)) =
      ((fun x : Nat => decide (x ∈ matchedIdList randB randS orders)) ∘
        (fun o : Order => o.id)) from rfl]
    rw [← List.countP_map]
    rw [countP_mem_eq_length _ _ hidsP hMnodup hMsub]
    exact hMlen
  -- relate the new book's pending count to the old one
  have hbook : (pendingOf (findMatches randB randS baseId now token orders).2).length =
      (pendingOf orders).length -
        (pendingOf orders).countP
          (fun o => (formedMatches randB randS baseId now token orders).any
            (fun m => m.buyOrder.id = o.id || m.sellOrder.id = o.id)) := by
    have hsplit2 := List.length_eq_countP_add_countP
      (p := fun o : Order => (formedMatches randB randS baseId now token orders).any
        (fun m => m.buyOrder.id = o.id || m.sellOrder.id = o.id))
      (l := pendingOf orders)
    have hmain : (pendingOf (findMatches randB randS baseId now token orders).2).length =
        (pendingOf orders).countP
          (fun o => !(formedMatches randB randS baseId now token orders).any
            (fun m => m.buyOrder.id = o.id || m.sellOrder.id = o.id)) := by
      show (((findMatches randB randS baseId now token orders).2).filter
        (fun o => decide (o.status = OrderStatus.pending))).length = _
      rw [← List.countP_eq_length_filter]
      show ((orders.map _).countP _) = _
      rw [List.countP_map]
      have hfil : (pendingOf orders).countP
          (fun o => !(formedMatches randB randS baseId now token orders).any
            (fun m => m.buyOrder.id = o.id || m.sellOrder.id = o.id)) =
          orders.countP
            (fun o => (!(formedMatches randB randS baseId now token orders).any
              (fun m => m.buyOrder.id = o.id || m.sellOrder.id = o.id)) &&
              decide (o.status = OrderStatus.pending)) := by
        simp only [pendingOf]
        exact List.countP_filter _ _ _
      rw [hfil]
      apply List.countP_congr
      intro o _
      by_cases hc : (formedMatches randB randS baseId now token orders).any
          (fun m => m.buyOrder.id = o.id || m.sellOrder.id = o.id) = true
      · simp [Function.comp, hc]
      · rw [Bool.not_eq_true] at hc
        simp [Function.comp, hc]
    rw [hmain]
    have hcongr : (pendingOf orders).countP
        (fun o => !(formedMatches randB randS baseId now token orders).any
          (fun m => m.buyOrder.id = o.id || m.sellOrder.id = o.id)) =
        (pendingOf orders).countP
          (fun o => ¬((formedMatches randB randS baseId now token orders).any
            (fun m => m.buyOrder.id = o.id || m.sellOrder.id = o.id)) = true) := by
      apply List.countP_congr
      intro o _
      simp
    rw [hcongr]
    omega
  rw [hbook, hcount, hn]
  omega

lemma findMatches_fst (randB randS : Nat → Nat) (baseId now : Nat) (token : String)
    (orders : List Order) :
    (findMatches randB randS baseId now token orders).1 =
      formedMatches randB randS baseId now token orders := rfl

lemma findMatches_snd (randB randS : Nat → Nat) (baseId now : Nat) (token : String)
    (orders : List Order) :
    (findMatches randB randS baseId now token orders).2 =
      orders.map (fun o =>
        if (formedMatches randB randS baseId now token orders).any
            (fun m => m.buyOrder.id = o.id || m.sellOrder.id = o.id) then
          { o with status := .matched }
        else o) := rfl

/-- Claim C5 (amended): with `buyCount`/`sellCount` counting the pending
orders as classified by the resolver (side-resolution failures default to
`buy`), a pass forms exactly `min(buyCount, sellCount)` matches, each
pairing a classified pending buy with a classified pending sell; every
paired order is marked `matched`, unpaired orders are carried over
unchanged, and the pending count drops to `|buyCount - sellCount|`.
The unamended claim counts only resolvable orders and fails when an
unresolvable order is present — see the counterexample. -/
theorem findMatches_pairing_conservation (randB randS : Nat → Nat) (baseId now : Nat)
    (token : String) (orders : List Order)
    (h : (orders.map (·.id)).Nodup) :
    (findMatches randB randS baseId now token orders).1.length =
        min (buyPartition orders).length (sellPartition orders).length
    ∧ (∀ m ∈ (findMatches randB randS baseId now token orders).1,
        m.buyOrder ∈ buyPartition orders ∧ m.sellOrder ∈ sellPartition orders ∧
          m.buyOrder.status = .pending ∧ m.sellOrder.status = .pending ∧
          decryptSide m.buyOrder.encryptedSide = .buy ∧
          decryptSide m.sellOrder.encryptedSide = .sell)
    ∧ (∀ o ∈ (findMatches randB randS baseId now token orders).2,
        (∃ mm ∈ (findMatches randB randS baseId now token orders).1,
            o.id = mm.buyOrder.id ∨ o.id = mm.sellOrder.id) →
          o.status = .matched)
    ∧ (∀ o ∈ orders,
        ¬(∃ mm ∈ (findMatches randB randS baseId now token orders).1,
            o.id = mm.buyOrder.id ∨ o.id = mm.sellOrder.id) →
          o ∈ (findMatches randB randS baseId now token orders).2)
    ∧ (pendingOf (findMatches randB randS baseId now token orders).2).length =
        (buyPartition orders).length + (sellPartition orders).length -
          2 * min (buyPartition orders).length (sellPartition orders).length := by
  refine ⟨findMatches_fst_length _ _ _ _ _ _, ?_, ?_, ?_,
    findMatches_pending_count _ _ _ _ _ _ h⟩
  · intro m hm
    rw [findMatches_fst] at hm
    have hb := mem_buyOrder_of_mem_formedMatches randB randS baseId now token orders m hm
    have hs := mem_sellOrder_of_mem_formedMatches randB randS baseId now token orders m hm
    have hbP := List.mem_filter.mp hb
    have hsP := List.mem_filter.mp hs
    have hbPend := (List.mem_filter.mp hbP.1).2
    have hsPend := (List.mem_filter.mp hsP.1).2
    simp only [decide_eq_true_eq] at hbPend hsPend
    have hbSide := hbP.2
    have hsSide := hsP.2
    simp only [decide_eq_true_eq] at hbSide hsSide
    refine ⟨hb, hs, hbPend, hsPend, hbSide, ?_⟩
    cases hcs : decryptSide m.sellOrder.encryptedSide with
    | buy => exact absurd hcs hsSide
    | sell => rfl
  · intro o ho hex
    rw [findMatches_snd] at ho
    obtain ⟨o₀, ho₀, rfl⟩ := List.mem_map.mp ho
    by_cases hc : ((formedMatches randB randS baseId now token orders).any
        (fun m => m.buyOrder.id = o₀.id || m.sellOrder.id = o₀.id)) = true
    · rw [if_pos hc]
    · exfalso
      rw [if_neg hc] at hex
      rw [findMatches_fst] at hex
      obtain ⟨mm, hmm, hor⟩ := hex
      apply hc
      refine List.any_eq_true.mpr ⟨mm, hmm, ?_⟩
      rcases hor with h1 | h1 <;> simp [h1.symm]
  · intro o ho hnot
    rw [findMatches_snd]
    by_cases hc : ((formedMatches randB randS baseId now token orders).any
        (fun m => m.buyOrder.id = o.id || m.sellOrder.id = o.id)) = true
    · exfalso
      apply hnot
      obtain ⟨mm, hmm, hor⟩ := List.any_eq_true.mp hc
      rw [findMatches_fst]
      refine ⟨mm, hmm, ?_⟩
      simp only [Bool.or_eq_true, decide_eq_true_eq] at hor
      rcases hor with h1 | h1
      · exact Or.inl h1.symm
      · exact Or.inr h1.symm
    · have hfo : (fun o : Order =>
          if (formedMatches randB randS baseId now token orders).any
              (fun m => m.buyOrder.id = o.id || m.sellOrder.id = o.id) then
            { o with status := OrderStatus.matched }
          else o) o = o := if_neg hc
      exact hfo ▸ List.mem_map_of_mem _ ho

/-- An order whose side resolution does not throw (the notion of
"resolvable" quantified over by the unamended C5). -/
def sideResolvable (o : Order) : Bool :=
  match o.encryptedSide with
  | .bytes _ => true
  | .undecodable => false

/-- Pending order with an unresolvable side, for the C5 counterexample. -/
def c5U : Order :=
  { id := 40, encryptedPayload := .unparseable, commitment := "cu5", nullifier := "nu5"
    tokenAddress := "T", timestamp := 0, status := .pending, encryptedSide := .undecodable }

/-- Pending resolvable sell order, for the C5 counterexample. -/
def c5S : Order :=
  { id := 41, encryptedPayload := .unparseable, commitment := "cs5", nullifier := "ns5"
    tokenAddress := "T", timestamp := 0, status := .pending, encryptedSide := .bytes [3] }

/-- Counterexample to C5 as stated: among the resolvable pending orders
there are 0 buys and 1 sell, so the claim predicts `min(0, 1) = 0` matches,
but the pass forms 1 match (the unresolvable order was defaulted to buy). -/
theorem findMatches_pairing_conservation_counterexample :
    ([c5U, c5S].filter (fun o => sideResolvable o &&
        decide (o.status = OrderStatus.pending) &&
        decide (decryptSide o.encryptedSide = Side.buy))).length = 0 ∧
    ([c5U, c5S].filter (fun o => sideResolvable o &&
        decide (o.status = OrderStatus.pending) &&
        decide (decryptSide o.encryptedSide = Side.sell))).length = 1 ∧
    (findMatches (fun _ => 0) (fun _ => 0) 0 0 "T" [c5U, c5S]).1.length = 1 ∧
    ¬(findMatches (fun _ => 0) (fun _ => 0) 0 0 "T" [c5U, c5S]).1.length = min 0 1 := by
  refine ⟨by decide, by decide, by decide, by decide⟩

/-- Pending buy order for the C5 witness. -/
def c5W1 : Order :=
  { id := 50, encryptedPayload := .unparseable, commitment := "cw1", nullifier := "nw1"
    tokenAddress := "T", timestamp := 0, status := .pending, encryptedSide := .bytes [2] }

/-- Pending sell order for the C5 witness. -/
def c5W2 : Order :=
  { id := 51, encryptedPayload := .unparseable, commitment := "cw2", nullifier := "nw2"
    tokenAddress := "T", timestamp := 0, status := .pending, encryptedSide := .bytes [5] }

/-- Witness for C5 (amended) on a concrete two-order book. -/
theorem findMatches_pairing_conservation_witness :
    ((([c5W1, c5W2] : List Order).map (·.id)).Nodup) ∧
    (findMatches (fun _ => 0) (fun _ => 0) 0 0 "T" [c5W1, c5W2]).1.length =
      min (buyPartition [c5W1, c5W2]).length (sellPartition [c5W1, c5W2]).length ∧
    (pendingOf (findMatches (fun _ => 0) (fun _ => 0) 0 0 "T" [c5W1, c5W2]).2).length =
      (buyPartition [c5W1, c5W2]).length + (sellPartition [c5W1, c5W2]).length -
        2 * min (buyPartition [c5W1, c5W2]).length (sellPartition [c5W1, c5W2]).length := by
  have h := findMatches_pairing_conservation (fun _ => 0) (fun _ => 0) 0 0 "T"
    [c5W1, c5W2] (by decide)
  exact ⟨by decide, h.1, h.2.2.2.2⟩

/-! ### Claim C7: nullifier uniqueness across operation traces -/

lemma booksNullifiers_bookPush (books : List (String × List Order)) (t : String)
    (o : Order) :
    List.Perm (booksNullifiers (bookPush books t o))
      (booksNullifiers books ++ [o.nullifier]) := by
  induction books with
  | nil => simp [bookPush, booksNullifiers]
  | cons e rest ih =>
    by_cases h : e.1 = t
    · simp only [bookPush, if_pos h, booksNullifiers, List.flatMap_cons, List.map_append]
      rw [List.append_assoc, List.append_assoc]
      exact List.Perm.append_left _ List.perm_append_comm
    · simp only [bookPush, if_neg h, booksNullifiers, List.flatMap_cons] at ih ⊢
      have h1 := List.Perm.append_left (e.2.map (·.nullifier)) ih
      rw [← List.append_assoc] at h1
      exact h1

lemma cancelFromOrders_sublist (n c : String) :
    ∀ (os os' : List Order), cancelFromOrders n c os = some os' → List.Sublist os' os := by
  intro os
  induction os with
  | nil => intro os' h; simp [cancelFromOrders] at h
  | cons o rest ih =>
    intro os' h
    by_cases hp : o.nullifier = n ∧ o.commitment = c ∧ o.status = .pending
    · simp only [cancelFromOrders, if_pos hp, Option.some.injEq] at h
      subst h
      exact List.sublist_cons_self o rest
    · simp only [cancelFromOrders, if_neg hp, Option.map_eq_some'] at h
      obtain ⟨t, ht, rfl⟩ := h
      exact (ih t ht).cons₂ o

lemma cancelInBooks_nullifiers_sublist (n c : String) :
    ∀ (books books' : List (String × List Order)), cancelInBooks n c books = some books' →
      List.Sublist (booksNullifiers books') (booksNullifiers books) := by
  intro books
  induction books with
  | nil => intro b' h; simp [cancelInBooks] at h
  | cons e rest ih =>
    intro b' h
    cases he : cancelFromOrders n c e.2 with
    | some os =>
      simp only [cancelInBooks, he, Option.some.injEq] at h
      subst h
      simp only [booksNullifiers, List.flatMap_cons]
      exact ((cancelFromOrders_sublist n c e.2 os he).map _).append (List.Sublist.refl _)
    | none =>
      simp only [cancelInBooks, he, Option.map_eq_some'] at h
      obtain ⟨t, ht, rfl⟩ := h
      simp only [booksNullifiers, List.flatMap_cons]
      exact (List.Sublist.refl _).append (ih t ht)

lemma findMatches_snd_nullifiers (randB randS : Nat → Nat) (baseId now : Nat)
    (token : String) (orders : List Order) :
    ((findMatches randB randS baseId now token orders).2).map (·.nullifier) =
      orders.map (·.nullifier) := by
  rw [findMatches_snd, List.map_map]
  apply List.map_congr_left
  intro o _
  by_cases hc : ((formedMatches randB randS baseId now token orders).any
      (fun m => m.buyOrder.id = o.id || m.sellOrder.id = o.id)) = true
  · rw [Function.comp_apply, if_pos hc]
  · rw [Function.comp_apply, if_neg hc]

lemma runMatchingCycle_nullifiers (cfg : Config) (randB randS : String → Nat → Nat)
    (baseId now : Nat) (st : EngineState) :
    booksNullifiers (runMatchingCycle cfg randB randS baseId now st).1.orderBooks =
      booksNullifiers st.orderBooks := by
  show booksNullifiers (st.orderBooks.map (cycleEntryBook cfg randB randS baseId now)) = _
  induction st.orderBooks with
  | nil => rfl
  | cons e rest ih =>
    simp only [List.map_cons, booksNullifiers, List.flatMap_cons] at ih ⊢
    rw [ih]
    congr 1
    unfold cycleEntryBook
    by_cases hlen : e.2.length < cfg.minBatchSize
    · rw [if_pos hlen]
    · rw [if_neg hlen]
      exact findMatches_snd_nullifiers _ _ _ _ _ _

lemma setStatusById_nullifiers (books : List (String × List Order)) (ids : List Nat)
    (s : OrderStatus) :
    booksNullifiers (setStatusById books ids s) = booksNullifiers books := by
  induction books with
  | nil => rfl
  | cons e rest ih =>
    simp only [setStatusById, List.map_cons, booksNullifiers, List.flatMap_cons] at ih ⊢
    rw [ih, List.map_map]
    congr 1
    apply List.map_congr_left
    intro o _
    by_cases h : o.id ∈ ids
    · rw [Function.comp_apply, if_pos h]
    · rw [Function.comp_apply, if_neg h]

lemma removeMatchedOrders_nullifiers_sublist (books : List (String × List Order))
    (m : Match) :
    List.Sublist (booksNullifiers (removeMatchedOrders books m))
      (booksNullifiers books) := by
  induction books with
  | nil => exact List.Sublist.refl _
  | cons e rest ih =>
    by_cases h : e.1 = m.tokenAddress
    · simp only [removeMatchedOrders, if_pos h, booksNullifiers, List.flatMap_cons]
      exact ((List.filter_sublist _).map _).append (List.Sublist.refl _)
    · simp only [removeMatchedOrders, if_neg h, booksNullifiers, List.flatMap_cons]
      exact (List.Sublist.refl _).append ih

lemma dispatchMatch_nullifiers_sublist (svc : Option SwapOutcome) (r : ℚ) (now : Nat)
    (st : EngineState) (m : Match) :
    List.Sublist (booksNullifiers (dispatchMatch svc r now st m).orderBooks)
      (booksNullifiers st.orderBooks) := by
  rcases svc with _ | outc
  · exact removeMatchedOrders_nullifiers_sublist st.orderBooks m
  · cases outc with
    | ok tx => exact removeMatchedOrders_nullifiers_sublist st.orderBooks m
    | err msg =>
      show List.Sublist (booksNullifiers (setStatusById (setStatusById st.orderBooks
        [m.buyOrder.id, m.sellOrder.id] .pending) [m.buyOrder.id, m.sellOrder.id]
        .pending)) _
      rw [setStatusById_nullifiers, setStatusById_nullifiers]

lemma submitOrder_nullifiers (cfg : Config) (now : Nat) (st : EngineState)
    (raw : RawOrder) (hv : validateEncryptedOrder raw = true) :
    List.Perm (booksNullifiers (submitOrder cfg now st raw).1.orderBooks)
      (booksNullifiers st.orderBooks ++ [raw.nullifier.getD ""]) := by
  simp only [submitOrder, if_pos hv]
  exact booksNullifiers_bookPush st.orderBooks (raw.tokenAddress.getD "") _

lemma runOps_nullifiers_nodup (cfg : Config) :
    ∀ (ops : List Op) (st : EngineState),
      (booksNullifiers st.orderBooks).Nodup →
      (validSubmitNullifiers ops).Nodup →
      (∀ x ∈ booksNullifiers st.orderBooks, x ∉ validSubmitNullifiers ops) →
      (booksNullifiers (runOps cfg st ops).orderBooks).Nodup := by
  intro ops
  induction ops with
  | nil => intro st h1 _ _; exact h1
  | cons op rest ih =>
    intro st h1 h2 h3
    show (booksNullifiers (runOps cfg (stepOp cfg st op) rest).orderBooks).Nodup
    cases op with
    | submit now raw =>
      by_cases hv : validateEncryptedOrder raw = true
      · have hperm := submitOrder_nullifiers cfg now st raw hv
        have hvs : validSubmitNullifiers (Op.submit now raw :: rest) =
            raw.nullifier.getD "" :: validSubmitNullifiers rest := by
          simp [validSubmitNullifiers, hv]
        rw [hvs] at h2 h3
        have hn_not : raw.nullifier.getD "" ∉ booksNullifiers st.orderBooks := by
          intro hmem
          exact h3 _ hmem (List.mem_cons_self _ _)
        refine ih (stepOp cfg st (.submit now raw)) ?_ (List.nodup_cons.mp h2).2 ?_
        · refine hperm.nodup_iff.mpr ?_
          rw [List.nodup_append]
          exact ⟨h1, List.nodup_singleton _, by
            intro x hx hx'
            simp only [List.mem_singleton] at hx'
            subst hx'
            exact hn_not hx⟩
        · intro x hx
          have hx' := hperm.subset hx
          rcases List.mem_append.mp hx' with hx' | hx'
          · exact fun hmem => h3 x hx' (List.mem_cons_of_mem _ hmem)
          · simp only [List.mem_singleton] at hx'
            subst hx'
            exact (List.nodup_cons.mp h2).1
      · have hstep : stepOp cfg st (.submit now raw) = st := by
          rw [Bool.not_eq_true] at hv
          simp [stepOp, submitOrder, hv]
        have hvs : validSubmitNullifiers (Op.submit now raw :: rest) =
            validSubmitNullifiers rest := by
          rw [Bool.not_eq_true] at hv
          simp [validSubmitNullifiers, hv]
        rw [hvs] at h2 h3
        rw [hstep]
        exact ih st h1 h2 h3
    | cancel n c =>
      have hsub : List.Sublist (booksNullifiers (stepOp cfg st (.cancel n c)).orderBooks)
          (booksNullifiers st.orderBooks) := by
        show List.Sublist (booksNullifiers (cancelOrder st n c).1.orderBooks) _
        unfold cancelOrder
        cases hb : cancelInBooks n c st.orderBooks with
        | some books' => exact cancelInBooks_nullifiers_sublist n c st.orderBooks books' hb
        | none => exact List.Sublist.refl _
      exact ih _ (List.Nodup.sublist hsub h1) h2
        (fun x hx => h3 x (hsub.subset hx))
    | cycle randB randS baseId now =>
      have heq := runMatchingCycle_nullifiers cfg randB randS baseId now st
      refine ih _ ?_ h2 ?_
      · show (booksNullifiers (runMatchingCycle cfg randB randS baseId now st).1.orderBooks).Nodup
        rw [heq]; exact h1
      · intro x hx
        rw [show (stepOp cfg st (.cycle randB randS baseId now)).orderBooks =
          (runMatchingCycle cfg randB randS baseId now st).1.orderBooks from rfl] at hx
        rw [heq] at hx
        exact h3 x hx
    | settle svc r now m =>
      have hsub := dispatchMatch_nullifiers_sublist svc r now st m
      exact ih _ (List.Nodup.sublist hsub h1) h2
        (fun x hx => h3 x (hsub.subset hx))

lemma entry_nullifiers_sublist {books : List (String × List Order)}
    {e : String × List Order} (he : e ∈ books) :
    List.Sublist (e.2.map (·.nullifier)) (booksNullifiers books) := by
  induction books with
  | nil => simp at he
  | cons e₀ rest ih =>
    rcases List.mem_cons.mp he with rfl | he
    · simp only [booksNullifiers, List.flatMap_cons]
      exact List.sublist_append_left _ _
    · simp only [booksNullifiers, List.flatMap_cons]
      exact (ih he).trans (List.sublist_append_right _ _)

/-- Claim C7 (amended): provided every successfully admitted submission in
the trace carries a distinct nullifier, no two orders in any token's book
share a nullifier after any sequence of submit / cancel / matching-cycle /
settlement operations.  The engine itself never enforces this — see the
counterexample, where submitting the same nullifier twice yields a book
with a duplicated nullifier. -/
theorem nullifier_uniqueness_of_distinct_submissions (cfg : Config) (ops : List Op)
    (h : (validSubmitNullifiers ops).Nodup) :
    ∀ e ∈ (runOps cfg initialState ops).orderBooks, (e.2.map (·.nullifier)).Nodup := by
  have hglob := runOps_nullifiers_nodup cfg ops initialState
    (by simp [initialState, booksNullifiers]) h
    (by simp [initialState, booksNullifiers])
  intro e he
  exact List.Nodup.sublist (entry_nullifiers_sublist he) hglob

/-- A structurally valid submission with nullifier `n1`. -/
def c7Raw1 : RawOrder :=
  { payload := .val .unparseable, commitment := .val "c1", nullifier := .val "n1"
    tokenAddress := .val "T", encryptedSide := .val (.bytes [0]) }

/-- A structurally valid submission with nullifier `n2`. -/
def c7Raw2 : RawOrder :=
  { payload := .val .unparseable, commitment := .val "c2", nullifier := .val "n2"
    tokenAddress := .val "T", encryptedSide := .val (.bytes [1]) }

/-- Witness for C7 (amended) on a concrete two-submission trace. -/
theorem nullifier_uniqueness_of_distinct_submissions_witness :
    (validSubmitNullifiers [Op.submit 0 c7Raw1, Op.submit 1 c7Raw2]).Nodup ∧
      ∀ e ∈ (runOps (defaultConfig none) initialState
          [Op.submit 0 c7Raw1, Op.submit 1 c7Raw2]).orderBooks,
        (e.2.map (·.nullifier)).Nodup :=
  ⟨by decide,
   nullifier_uniqueness_of_distinct_submissions (defaultConfig none)
     [Op.submit 0 c7Raw1, Op.submit 1 c7Raw2] (by decide)⟩

/-- Counterexample to C7 as stated: the engine performs no nullifier
uniqueness check, so submitting the same (valid) order twice leaves two
active orders with the same nullifier in the same book. -/
theorem nullifier_uniqueness_counterexample :
    ((runOps (defaultConfig none) initialState
        [Op.submit 0 c7Raw1, Op.submit 1 c7Raw1]).orderBooks.map
      (fun e => e.2.map (·.nullifier))) = [["n1", "n1"]] ∧
    ¬(∀ e ∈ (runOps (defaultConfig none) initialState
        [Op.submit 0 c7Raw1, Op.submit 1 c7Raw1]).orderBooks,
      (e.2.map (·.nullifier)).Nodup) := by
  refine ⟨by decide, by decide⟩

end DarkPool
